import Mathlib

/-!
Verification of the migration-plan execution engine of `migrate-bb-to-gh`.

The development shallowly embeds the Rust sources:
  * `src/repositories/action.rs` — the repository-migration `Action` enum and
    the `Repository` record;
  * `src/circleci/action.rs` — the CircleCI `Action` enum and `EnvVar`;
  * `src/repositories/migrator.rs` — `Migration`, `Migrator::migrate`, the
    action loop, `migrate_repositories`, `migrate_repository`, the SSH key
    staging and the git mirror subroutine call sites;
  * `src/circleci/migrator.rs` — the CircleCI `Migrator`;
  * `src/circleci/api/mod.rs` — `CircleCiApi::export_environment` and its
    bounded retry loop;
  * `src/github.rs` — `create_repository` with its 422 handling.

External effects (HTTP requests, the prompt, the filesystem, the git binary)
are modelled by an environment record of response oracles; each embedded
function returns the list of calls it made (its trace) together with its
result, so that claims about call order and about the absence of side effects
become statements about traces.
-/

namespace MigrateBbToGh

/-! ## Data model: `src/repositories/action.rs` and `src/github.rs` -/

namespace Repositories

/-- Embedding of `Repository` from `src/repositories/action.rs` (fields in
declaration order: `clone_link`, `name`, `full_name`). -/
structure Repository where
  clone_link : String
  name : String
  full_name : String
deriving DecidableEq, Repr

end Repositories

namespace Github

/-- Embedding of `TeamRepositoryPermission` from `src/github.rs`, a unit enum
serialized with `rename_all = "snake_case"`. -/
inductive TeamRepositoryPermission where
  | pull
  | triage
  | push
  | maintain
  | admin
deriving DecidableEq, Repr

/-- Embedding of `Repository` from `src/github.rs` (the GitHub-side repository
metadata; `id: u32` becomes `Nat`). -/
structure Repository where
  id : Nat
  name : String
  full_name : String
  ssh_url : String
  default_branch : String
deriving DecidableEq, Repr

end Github

namespace Repositories

/-- Embedding of the `Action` enum from `src/repositories/action.rs`, in
source declaration order. -/
inductive Action where
  | migrateRepositories (repositories : List Repository)
  | createTeam (name : String) (repositories : List String)
  | addMembersToTeam (team_name : String) (team_slug : String)
      (members : List String)
  | assignRepositoriesToTeam (team_name : String) (team_slug : String)
      (permission : Github.TeamRepositoryPermission)
      (repositories : List String)
  | setRepositoryDefaultBranch (repository_name : String) (branch : String)
deriving DecidableEq, Repr

/-- Embedding of `Migration` from `src/repositories/migrator.rs`:
a version string plus the ordered action list. -/
structure Migration where
  version : String
  actions : List Action
deriving DecidableEq, Repr

end Repositories

namespace Circleci

/-- Embedding of `EnvVar` from `src/circleci/action.rs`. -/
structure EnvVar where
  name : String
  value : String
deriving DecidableEq, Repr

/-- Embedding of `Context` from `src/circleci/api/models.rs` (name and id). -/
structure Context where
  name : String
  id : String
deriving DecidableEq, Repr

/-- Embedding of the `Action` enum from `src/circleci/action.rs`, in source
declaration order. -/
inductive Action where
  | moveEnvironmentalVariables (from_repository_name : String)
      (to_repository_name : String) (env_vars : List String)
  | createContext (name : String) (vars : List EnvVar)
  | startPipeline (repository_name : String) (branch : String)
deriving DecidableEq, Repr

/-- Embedding of `Migration` from `src/circleci/migrator.rs`. -/
structure Migration where
  version : String
  actions : List Action
deriving DecidableEq, Repr

end Circleci

/-! ## The serde_json value tree and the derived serialization

Both `Action` enums derive `Serialize, Deserialize` with
`#[serde(rename_all = "snake_case")]`: serde represents an enum value as an
externally tagged single-entry object whose key is the snake_case variant
name and whose value is the object of the variant fields (in field order);
unit enums such as `TeamRepositoryPermission` become plain strings. The
embedding works at the level of the JSON value tree (the shape
`serde_json::Value` round-trips through text verbatim). -/

/-- JSON value tree (the fragment produced for plan documents: strings,
arrays and objects with ordered fields). -/
inductive Json where
  | str (s : String)
  | arr (xs : List Json)
  | obj (fields : List (String × Json))

/-- Lookup of an object field by name, first match wins (serde looks fields
up by name, independently of position). -/
def getField : List (String × Json) → String → Option Json
  | [], _ => none
  | (k, v) :: rest, name => if k = name then some v else getField rest name

/-- Decoding of a JSON string node. -/
def asStr : Json → Option String
  | .str s => some s
  | _ => none

/-- Element-wise decoding of a JSON array, failing if any element fails
(the shape of serde sequence deserialization). -/
def decodeList (dec : Json → Option α) : List Json → Option (List α)
  | [] => some []
  | j :: rest =>
    match dec j, decodeList dec rest with
    | some a, some l => some (a :: l)
    | _, _ => none

theorem decodeList_map_encode (dec : Json → Option α) (enc : α → Json)
    (h : ∀ a, dec (enc a) = some a) :
    ∀ l : List α, decodeList dec (l.map enc) = some l := by
  intro l
  induction l with
  | nil => rfl
  | cons a t ih => simp [decodeList, h, ih]

namespace Github

/-- Serialization of `TeamRepositoryPermission`: snake_case variant name as a
plain string. -/
def encodePermission : TeamRepositoryPermission → Json
  | .pull => .str "pull"
  | .triage => .str "triage"
  | .push => .str "push"
  | .maintain => .str "maintain"
  | .admin => .str "admin"

/-- Deserialization of `TeamRepositoryPermission`. -/
def decodePermission : Json → Option TeamRepositoryPermission
  | .str "pull" => some .pull
  | .str "triage" => some .triage
  | .str "push" => some .push
  | .str "maintain" => some .maintain
  | .str "admin" => some .admin
  | _ => none

theorem decodePermission_encodePermission (p : TeamRepositoryPermission) :
    decodePermission (encodePermission p) = some p := by
  cases p <;> rfl

end Github

namespace Repositories

/-- Serialization of `Repository`: object with the three string fields in
declaration order. -/
def encodeRepository (r : Repository) : Json :=
  .obj [("clone_link", .str r.clone_link), ("name", .str r.name),
    ("full_name", .str r.full_name)]

/-- Deserialization of `Repository`. -/
def decodeRepository (j : Json) : Option Repository :=
  match j with
  | .obj fields =>
    match getField fields "clone_link", getField fields "name",
        getField fields "full_name" with
    | some (.str c), some (.str n), some (.str f) => some ⟨c, n, f⟩
    | _, _, _ => none
  | _ => none

theorem decodeRepository_encodeRepository (r : Repository) :
    decodeRepository (encodeRepository r) = some r := by
  cases r
  rfl

/-- Serialization of the repository-migration `Action`: externally tagged
single-entry object, snake_case tag, fields in declaration order. -/
def encodeAction : Action → Json
  | .migrateRepositories repositories =>
    .obj [("migrate_repositories",
      .obj [("repositories", .arr (repositories.map encodeRepository))])]
  | .createTeam name repositories =>
    .obj [("create_team",
      .obj [("name", .str name),
        ("repositories", .arr (repositories.map Json.str))])]
  | .addMembersToTeam team_name team_slug members =>
    .obj [("add_members_to_team",
      .obj [("team_name", .str team_name), ("team_slug", .str team_slug),
        ("members", .arr (members.map Json.str))])]
  | .assignRepositoriesToTeam team_name team_slug permission repositories =>
    .obj [("assign_repositories_to_team",
      .obj [("team_name", .str team_name), ("team_slug", .str team_slug),
        ("permission", Github.encodePermission permission),
        ("repositories", .arr (repositories.map Json.str))])]
  | .setRepositoryDefaultBranch repository_name branch =>
    .obj [("set_repository_default_branch",
      .obj [("repository_name", .str repository_name),
        ("branch", .str branch)])]

/-- Deserialization of one tagged variant payload of the
repository-migration `Action`. -/
def decodeActionPayload (tag : String) (payload : Json) : Option Action :=
  match payload with
  | .obj fields =>
    if tag = "migrate_repositories" then
      match getField fields "repositories" with
      | some (.arr js) =>
        (decodeList decodeRepository js).map Action.migrateRepositories
      | _ => none
    else if tag = "create_team" then
      match getField fields "name", getField fields "repositories" with
      | some (.str name), some (.arr js) =>
        (decodeList asStr js).map (Action.createTeam name)
      | _, _ => none
    else if tag = "add_members_to_team" then
      match getField fields "team_name", getField fields "team_slug",
          getField fields "members" with
      | some (.str tn), some (.str ts), some (.arr js) =>
        (decodeList asStr js).map (Action.addMembersToTeam tn ts)
      | _, _, _ => none
    else if tag = "assign_repositories_to_team" then
      match getField fields "team_name", getField fields "team_slug",
          getField fields "permission", getField fields "repositories" with
      | some (.str tn), some (.str ts), some pj, some (.arr js) =>
        match Github.decodePermission pj, decodeList asStr js with
        | some p, some rs => some (Action.assignRepositoriesToTeam tn ts p rs)
        | _, _ => none
      | _, _, _, _ => none
    else if tag = "set_repository_default_branch" then
      match getField fields "repository_name", getField fields "branch" with
      | some (.str rn), some (.str b) =>
        some (Action.setRepositoryDefaultBranch rn b)
      | _, _ => none
    else none
  | _ => none

/-- Deserialization of the repository-migration `Action`: expects the
externally tagged single-entry object. -/
def decodeAction : Json → Option Action
  | .obj [(tag, payload)] => decodeActionPayload tag payload
  | _ => none

theorem decodeAction_encodeAction (a : Action) :
    decodeAction (encodeAction a) = some a := by
  cases a with
  | migrateRepositories repositories =>
    simp [encodeAction, decodeAction, decodeActionPayload, getField,
      decodeList_map_encode decodeRepository encodeRepository
        decodeRepository_encodeRepository]
  | createTeam name repositories =>
    simp [encodeAction, decodeAction, decodeActionPayload, getField,
      decodeList_map_encode asStr Json.str (fun _ => rfl)]
  | addMembersToTeam team_name team_slug members =>
    simp [encodeAction, decodeAction, decodeActionPayload, getField,
      decodeList_map_encode asStr Json.str (fun _ => rfl)]
  | assignRepositoriesToTeam team_name team_slug permission repositories =>
    simp [encodeAction, decodeAction, decodeActionPayload, getField,
      Github.decodePermission_encodePermission,
      decodeList_map_encode asStr Json.str (fun _ => rfl)]
  | setRepositoryDefaultBranch repository_name branch =>
    simp [encodeAction, decodeAction, decodeActionPayload, getField]

/-- Serialization of the plan document `Migration`
(`{"version": ..., "actions": [...]}`). -/
def encodeMigration (m : Migration) : Json :=
  .obj [("version", .str m.version),
    ("actions", .arr (m.actions.map encodeAction))]

/-- Deserialization of the plan document `Migration`. -/
def decodeMigration (j : Json) : Option Migration :=
  match j with
  | .obj fields =>
    match getField fields "version", getField fields "actions" with
    | some (.str v), some (.arr js) =>
      (decodeList decodeAction js).map (fun actions => ⟨v, actions⟩)
    | _, _ => none
  | _ => none

theorem decodeMigration_encodeMigration (m : Migration) :
    decodeMigration (encodeMigration m) = some m := by
  cases m
  simp [encodeMigration, decodeMigration, getField,
    decodeList_map_encode decodeAction encodeAction decodeAction_encodeAction]

end Repositories

namespace Circleci

/-- Serialization of `EnvVar` (object with `name` and `value`). -/
def encodeEnvVar (v : EnvVar) : Json :=
  .obj [("name", .str v.name), ("value", .str v.value)]

/-- Deserialization of `EnvVar`. -/
def decodeEnvVar (j : Json) : Option EnvVar :=
  match j with
  | .obj fields =>
    match getField fields "name", getField fields "value" with
    | some (.str n), some (.str v) => some ⟨n, v⟩
    | _, _ => none
  | _ => none

theorem decodeEnvVar_encodeEnvVar (v : EnvVar) :
    decodeEnvVar (encodeEnvVar v) = some v := by
  cases v
  rfl

/-- Serialization of the CircleCI `Action`: externally tagged single-entry
object, snake_case tag, fields in declaration order. -/
def encodeAction : Action → Json
  | .moveEnvironmentalVariables f t env_vars =>
    .obj [("move_environmental_variables",
      .obj [("from_repository_name", .str f), ("to_repository_name", .str t),
        ("env_vars", .arr (env_vars.map Json.str))])]
  | .createContext name vars =>
    .obj [("create_context",
      .obj [("name", .str name),
        ("variables", .arr (vars.map encodeEnvVar))])]
  | .startPipeline repository_name branch =>
    .obj [("start_pipeline",
      .obj [("repository_name", .str repository_name),
        ("branch", .str branch)])]

/-- Deserialization of one tagged variant payload of the CircleCI
`Action`. -/
def decodeActionPayload (tag : String) (payload : Json) : Option Action :=
  match payload with
  | .obj fields =>
    if tag = "move_environmental_variables" then
      match getField fields "from_repository_name",
          getField fields "to_repository_name",
          getField fields "env_vars" with
      | some (.str f), some (.str t), some (.arr js) =>
        (decodeList asStr js).map (Action.moveEnvironmentalVariables f t)
      | _, _, _ => none
    else if tag = "create_context" then
      match getField fields "name", getField fields "variables" with
      | some (.str n), some (.arr js) =>
        (decodeList decodeEnvVar js).map (Action.createContext n)
      | _, _ => none
    else if tag = "start_pipeline" then
      match getField fields "repository_name", getField fields "branch" with
      | some (.str rn), some (.str b) => some (Action.startPipeline rn b)
      | _, _ => none
    else none
  | _ => none

/-- Deserialization of the CircleCI `Action`. -/
def decodeAction : Json → Option Action
  | .obj [(tag, payload)] => decodeActionPayload tag payload
  | _ => none

theorem cc_decodeAction_encodeAction (a : Action) :
    decodeAction (encodeAction a) = some a := by
  cases a with
  | moveEnvironmentalVariables f t env_vars =>
    simp [encodeAction, decodeAction, decodeActionPayload, getField,
      decodeList_map_encode asStr Json.str (fun _ => rfl)]
  | createContext name vars =>
    simp [encodeAction, decodeAction, decodeActionPayload, getField,
      decodeList_map_encode decodeEnvVar encodeEnvVar
        decodeEnvVar_encodeEnvVar]
  | startPipeline repository_name branch =>
    simp [encodeAction, decodeAction, decodeActionPayload, getField]

/-- Serialization of the CircleCI plan document `Migration`. -/
def encodeMigration (m : Migration) : Json :=
  .obj [("version", .str m.version),
    ("actions", .arr (m.actions.map encodeAction))]

/-- Deserialization of the CircleCI plan document `Migration`. -/
def decodeMigration (j : Json) : Option Migration :=
  match j with
  | .obj fields =>
    match getField fields "version", getField fields "actions" with
    | some (.str v), some (.arr js) =>
      (decodeList decodeAction js).map (fun actions => ⟨v, actions⟩)
    | _, _ => none
  | _ => none

theorem cc_decodeMigration_encodeMigration (m : Migration) :
    decodeMigration (encodeMigration m) = some m := by
  cases m
  simp [encodeMigration, decodeMigration, getField,
    decodeList_map_encode decodeAction encodeAction cc_decodeAction_encodeAction]

end Circleci

/-! ## Rust `str::replace`

`Migrator::migrate_repository` computes the destination repository name as
`repo.full_name.to_owned().replace("moodup/", "")` and the temporary
directory prefix as `repo.full_name.to_owned().replace('/', "_")`.
Rust `str::replace(from, to)` rewrites the leftmost, non-overlapping
occurrences of `from` (found by a forward scan that resumes after each
match) with `to`. The embedding works on character lists. -/

/-- Boolean test whether `p` is a prefix of `s` (character lists). -/
def isPrefixList : List Char → List Char → Bool
  | [], _ => true
  | _ :: _, [] => false
  | a :: as, b :: bs => a == b && isPrefixList as bs

theorem isPrefixList_append {p s : List Char} (h : isPrefixList p s = true) :
    s = p ++ s.drop p.length := by
  induction p generalizing s with
  | nil => simp
  | cons a as ih =>
    cases s with
    | nil => simp [isPrefixList] at h
    | cons b bs =>
      simp only [isPrefixList, Bool.and_eq_true, beq_iff_eq] at h
      obtain ⟨rfl, h2⟩ := h
      simpa using ih h2

theorem isPrefixList_length {p s : List Char} (h : isPrefixList p s = true) :
    p.length ≤ s.length := by
  have := isPrefixList_append h
  rw [this]
  simp

/-- Index of the leftmost occurrence of `pat` in `s` (the first element of
Rust `str::match_indices`), `none` if there is no occurrence. -/
def findSubIdx (pat : List Char) : List Char → Option Nat
  | [] => if isPrefixList pat [] then some 0 else none
  | a :: t =>
    if isPrefixList pat (a :: t) then some 0
    else (findSubIdx pat t).map (fun n => n + 1)

theorem findSubIdx_some_spec {pat s : List Char} {i : Nat}
    (h : findSubIdx pat s = some i) :
    i + pat.length ≤ s.length ∧
      s = s.take i ++ pat ++ s.drop (i + pat.length) := by
  induction s generalizing i with
  | nil =>
    simp only [findSubIdx] at h
    split at h
    · next hp =>
      have hl : pat.length = 0 :=
        Nat.le_zero.mp (by simpa using isPrefixList_length hp)
      have hpat : pat = [] := List.length_eq_zero.mp hl
      obtain rfl : (0 : Nat) = i := Option.some.inj h
      subst hpat
      simp
    · exact absurd h (by simp)
  | cons a t ih =>
    simp only [findSubIdx] at h
    split at h
    · next hp =>
      obtain rfl : (0 : Nat) = i := Option.some.inj h
      constructor
      · simpa using isPrefixList_length hp
      · simpa using isPrefixList_append hp
    · next hp =>
      rw [Option.map_eq_some'] at h
      obtain ⟨n, hn, rfl⟩ := h
      obtain ⟨hle, hdec⟩ := ih hn
      constructor
      · simp only [List.length_cons]
        omega
      · calc a :: t = a :: (t.take n ++ pat ++ t.drop (n + pat.length)) := by
              rw [← hdec]
          _ = (a :: t).take (n + 1) ++ pat ++
              (a :: t).drop (n + 1 + pat.length) := by
              rw [List.take_succ_cons,
                show n + 1 + pat.length = (n + pat.length) + 1 by omega,
                List.drop_succ_cons]
              simp

/-- Boolean containment of `pat` in `s` as a contiguous substring. -/
def containsSub (pat s : List Char) : Bool :=
  (findSubIdx pat s).isSome

/-- Embedding of Rust `str::replace` on character lists: rewrite the
leftmost occurrence and continue scanning after it. The `pat = []` guard is
never exercised by the source, which only calls `replace` with the nonempty
patterns `"moodup/"` and `'/'`. -/
def replaceList (s pat repl : List Char) : List Char :=
  if _hp : pat.length = 0 then s
  else
    match hf : findSubIdx pat s with
    | none => s
    | some i =>
      s.take i ++ repl ++ replaceList (s.drop (i + pat.length)) pat repl
termination_by s.length
decreasing_by
  have h := (findSubIdx_some_spec hf).1
  simp only [List.length_drop]
  omega

theorem replaceList_eq_of_none {s pat : List Char} (repl : List Char)
    (hf : findSubIdx pat s = none) : replaceList s pat repl = s := by
  rw [replaceList.eq_def]
  split
  · rfl
  · split
    · rfl
    · next j hj =>
      rw [hf] at hj
      exact absurd hj (by simp)

theorem replaceList_eq_of_some {s pat repl : List Char} {i : Nat}
    (hpl : ¬ pat.length = 0) (hf : findSubIdx pat s = some i) :
    replaceList s pat repl =
      s.take i ++ repl ++ replaceList (s.drop (i + pat.length)) pat repl := by
  rw [replaceList.eq_def]
  split
  · next h0 => exact absurd h0 hpl
  · split
    · next hn =>
      rw [hf] at hn
      exact absurd hn (by simp)
    · next j hj =>
      rw [hf] at hj
      obtain rfl : i = j := Option.some.inj hj
      rfl

theorem replaceList_of_not_contains {s pat : List Char} (repl : List Char)
    (h : containsSub pat s = false) : replaceList s pat repl = s := by
  apply replaceList_eq_of_none
  unfold containsSub at h
  cases hfs : findSubIdx pat s with
  | none => rfl
  | some i =>
    rw [hfs] at h
    simp at h

theorem replaceList_nil_length_le (pat : List Char) :
    ∀ s : List Char, (replaceList s pat []).length ≤ s.length := by
  suffices h : ∀ n, ∀ s : List Char, s.length ≤ n →
      (replaceList s pat []).length ≤ s.length by
    intro s
    exact h s.length s (Nat.le_refl _)
  intro n
  induction n with
  | zero =>
    intro s hs
    by_cases hpl : pat.length = 0
    · rw [replaceList.eq_def]
      simp [hpl]
    · cases hf : findSubIdx pat s with
      | none => rw [replaceList_eq_of_none _ hf]
      | some i =>
        have hle := (findSubIdx_some_spec hf).1
        exact absurd hle (by omega)
  | succ n ih =>
    intro s hs
    by_cases hpl : pat.length = 0
    · rw [replaceList.eq_def]
      simp [hpl]
    · cases hf : findSubIdx pat s with
      | none => rw [replaceList_eq_of_none _ hf]
      | some i =>
        have hle := (findSubIdx_some_spec hf).1
        rw [replaceList_eq_of_some hpl hf]
        have hrec := ih (s.drop (i + pat.length)) (by
          simp only [List.length_drop]
          omega)
        simp only [List.append_nil, List.length_append, List.length_take,
          List.length_drop] at hrec ⊢
        omega

theorem replaceList_nil_length_lt {s pat : List Char} (hp : pat ≠ [])
    (h : containsSub pat s = true) :
    (replaceList s pat []).length < s.length := by
  have hpl : ¬ pat.length = 0 := by simpa using hp
  rw [containsSub, Option.isSome_iff_exists] at h
  obtain ⟨i, hf⟩ := h
  have hle := (findSubIdx_some_spec hf).1
  rw [replaceList_eq_of_some hpl hf]
  have hrec := replaceList_nil_length_le pat (s.drop (i + pat.length))
  simp only [List.append_nil, List.length_append, List.length_take,
    List.length_drop] at hrec ⊢
  omega

/-- Interleaving of separator `sep` between the segments: the inverse image
shape of a replace-by-empty. -/
def joinWithSep (sep : List Char) : List (List Char) → List Char
  | [] => []
  | [x] => x
  | x :: y :: rest => x ++ sep ++ joinWithSep sep (y :: rest)

theorem joinWithSep_cons (sep x : List Char) {l : List (List Char)}
    (h : l ≠ []) :
    joinWithSep sep (x :: l) = x ++ sep ++ joinWithSep sep l := by
  cases l with
  | nil => exact absurd rfl h
  | cons y rest => rfl

/-- Replacing every scanned occurrence of `pat` by the empty string deletes
exactly the scanned occurrences: the input splits into segments interleaved
with `pat`, and the output is the concatenation of the segments. -/
theorem replaceList_nil_spec (pat : List Char) (hp : pat ≠ []) :
    ∀ s : List Char, ∃ segs : List (List Char), segs ≠ [] ∧
      s = joinWithSep pat segs ∧ replaceList s pat [] = segs.flatten := by
  have hpl : ¬ pat.length = 0 := by simpa using hp
  suffices h : ∀ n, ∀ s : List Char, s.length ≤ n →
      ∃ segs : List (List Char), segs ≠ [] ∧
        s = joinWithSep pat segs ∧ replaceList s pat [] = segs.flatten by
    intro s
    exact h s.length s (Nat.le_refl _)
  intro n
  induction n with
  | zero =>
    intro s hs
    cases hf : findSubIdx pat s with
    | none =>
      exact ⟨[s], by simp, by simp [joinWithSep],
        by rw [replaceList_eq_of_none _ hf]; simp⟩
    | some i =>
      have hle := (findSubIdx_some_spec hf).1
      exact absurd hle (by omega)
  | succ n ih =>
    intro s hs
    cases hf : findSubIdx pat s with
    | none =>
      exact ⟨[s], by simp, by simp [joinWithSep],
        by rw [replaceList_eq_of_none _ hf]; simp⟩
    | some i =>
      obtain ⟨hle, hdec⟩ := findSubIdx_some_spec hf
      obtain ⟨segs, hne, hjoin, hrepl⟩ := ih (s.drop (i + pat.length)) (by
        simp only [List.length_drop]
        omega)
      refine ⟨s.take i :: segs, by simp, ?_, ?_⟩
      · rw [joinWithSep_cons pat _ hne, ← hjoin]
        exact hdec
      · rw [replaceList_eq_of_some hpl hf, hrepl]
        simp

/-- String-level wrapper of `replaceList`: the embedding of
`String::replace` as called by the source. -/
def rustReplace (s pat repl : String) : String :=
  String.mk (replaceList s.data pat.data repl.data)

/-! ## The GitHub client: `create_repository` (`src/github.rs`) -/

namespace Github

/-- HTTP-level error of a client request: a response status error, or a
transport error that carries no status (`reqwest::Error::status()` returns
`None`). -/
inductive GhError where
  | status (code : Nat)
  | network
deriving DecidableEq, Repr

/-- GitHub client calls the engine can issue. -/
inductive GhCall where
  | createRepository (name : String)
  | getRepository (name : String)
  | createTeam (name : String) (repositories : List String)
  | updateTeamMembership (team_slug : String) (member : String)
  | assignRepositoryToTeam (team_slug : String)
      (permission : TeamRepositoryPermission) (repository : String)
  | setRepositoryDefaultBranch (repo_name : String) (branch : String)
deriving DecidableEq, Repr

/-- Oracle of GitHub responses for one run, keyed by request arguments. -/
structure GithubEnv where
  postCreateRepository : String → Except GhError Repository
  getRepositoryResult : String → Except GhError Repository
  createTeamResult : String → List String → Except GhError Unit
  updateTeamMembershipResult : String → String → Except GhError Unit
  assignRepositoryToTeamResult : String → TeamRepositoryPermission → String →
    Except GhError Unit
  setRepositoryDefaultBranchResult : String → String → Except GhError Unit

/-- Embedding of `create_repository` (`src/github.rs`, lines 183-209): POST
the new private repository; if the response is an error with status 422
(Unprocessable Entity, the "name already exists" answer), fall back to a GET
of the repository metadata and return that as success; any other error is
returned as an error. The call trace is the first component. -/
def create_repository (env : GithubEnv) (name : String) :
    List GhCall × Except GhError Repository :=
  match env.postCreateRepository name with
  | .ok r => ([.createRepository name], .ok r)
  | .error e =>
    if e = GhError.status 422 then
      match env.getRepositoryResult name with
      | .ok repo => ([.createRepository name, .getRepository name], .ok repo)
      | .error e2 => ([.createRepository name, .getRepository name], .error e2)
    else
      ([.createRepository name], .error e)

end Github

/-! ## The repository-migration engine (`src/repositories/migrator.rs`) -/

namespace Repositories

/-- Errors of the engine, one constructor per distinct error source in
`src/repositories/migrator.rs` (all are `anyhow::Error` in the source; the
constructors record which return site produced the error). -/
inductive EngineError where
  | io
  | parse
  | versionMismatch (expected : String) (found : String)
  | prompt
  | canceled
  | gh (e : Github.GhError)
  | git (stderr : String)
  | fs
deriving DecidableEq, Repr

/-- Events the engine emits: dispatch of `run` on an action, GitHub client
calls, SSH key staging, git subprocess invocations, temporary-directory
lifecycle, and the `eprintln` logging of a contained per-repository
failure. -/
inductive Event where
  | runInvoked (action : Action)
  | gh (call : Github.GhCall)
  | sshKeyStored (name : String)
  | tempDirCreated (label : String)
  | cloneInvoked (remote : String)
  | pushInvoked (remote : String)
  | tempDirRemoved (label : String)
  | failureLogged (e : EngineError)
deriving DecidableEq, Repr

/-- Environment of external responses for one engine run: the parsed plan
file, the confirmation answer, the GitHub oracle, and the filesystem and git
results, keyed by the natural argument of the underlying operation
(directory label or remote url). -/
structure Env where
  loadResult : Except EngineError Migration
  confirmResult : Except EngineError Bool
  github : Github.GithubEnv
  keysTempDir : Except EngineError Unit
  storeSshKey : String → Except EngineError Unit
  progressClear : Except EngineError Unit
  repoTempDir : String → Except EngineError Unit
  cloneResult : String → Except EngineError Unit
  pushResult : String → Except EngineError Unit
  closeResult : String → Except EngineError Unit

/-- Outcome of one spawned `migrate_repository` task: its event trace, its
returned `Result`, and whether its private temporary clone directory is
still on disk once the task has finished. -/
structure RepoTaskOutcome where
  events : List Event
  result : Except EngineError Repository
  tempDirOnDisk : Bool

/-- Prefix of the temporary-directory name:
`TempDir::new(&repo.full_name.to_owned().replace('/', "_"))`. -/
def repoLabel (repo : Repository) : String :=
  rustReplace repo.full_name "/" "_"

/-- Name passed to repository creation:
`repo.full_name.to_owned().replace("moodup/", "")`. -/
def ghRepoName (repo : Repository) : String :=
  rustReplace repo.full_name "moodup/" ""

/-- Events of a per-repository task up to and including the repository
creation call: temporary directory creation, the `clone_mirror` invocation
(whose result the source binds to `_` and discards), and the GitHub calls
of `create_repository`. -/
def taskPrefixEvents (env : Env) (repo : Repository) : List Event :=
  [Event.tempDirCreated (repoLabel repo),
    Event.cloneInvoked repo.clone_link] ++
  (Github.create_repository env.github (ghRepoName repo)).1.map Event.gh

/-- Embedding of `Migrator::migrate_repository`
(`src/repositories/migrator.rs`, lines 189-237), the body of one spawned
per-repository task: create the temporary directory, invoke `clone_mirror`
and discard its result (`let _ = ...`, so `env.cloneResult` is never
consulted), create the GitHub repository (early return on error), mirror
push to the created repository's `ssh_url` (early return on error), then
close the temporary directory.

The temporary directory is a `tempdir::TempDir` value whose `Drop`
implementation removes the directory, so on the early returns (`?` on the
repository creation and on the mirror push) the directory is deleted when
the task returns; the success path removes it explicitly through
`temp_dir.close()?`, and a `close` failure propagates as an error with the
directory (or what the failed removal left of it) still present. -/
def migrate_repository (env : Env) (repo : Repository) : RepoTaskOutcome :=
  match env.repoTempDir (repoLabel repo) with
  | .error e => ⟨[], .error e, false⟩
  | .ok _ =>
    match (Github.create_repository env.github (ghRepoName repo)).2 with
    | .error e => ⟨taskPrefixEvents env repo, .error (.gh e), false⟩
    | .ok gh_repo =>
      match env.pushResult gh_repo.ssh_url with
      | .error e =>
        ⟨taskPrefixEvents env repo ++ [Event.pushInvoked gh_repo.ssh_url],
          .error e, false⟩
      | .ok _ =>
        match env.closeResult (repoLabel repo) with
        | .error e =>
          ⟨taskPrefixEvents env repo ++ [Event.pushInvoked gh_repo.ssh_url],
            .error e, true⟩
        | .ok _ =>
          ⟨taskPrefixEvents env repo ++ [Event.pushInvoked gh_repo.ssh_url,
              Event.tempDirRemoved (repoLabel repo)],
            .ok repo, false⟩

/-- Outcome of `Migrator::migrate_repositories`: trace and result. -/
structure BatchOutcome where
  events : List Event
  result : Except EngineError Unit

/-- Events of the fan-out: the traces of all per-repository tasks,
serialized in repository order — one linearization of the concurrent
execution; no claim proved below depends on the interleaving. -/
def batchTaskEvents (env : Env) (repositories : List Repository) :
    List Event :=
  (repositories.map (fun r => (migrate_repository env r).events)).flatten

/-- Events of the failure-logging loop over awaited task results
(`if let Err(e) = res { eprintln!(...) }`), one per failed task, in task
order. -/
def batchLogEvents (env : Env) (repositories : List Repository) :
    List Event :=
  (repositories.map (migrate_repository env)).filterMap (fun o =>
    match o.result with
    | .error e => some (Event.failureLogged e)
    | .ok _ => none)

/-- Embedding of `Migrator::migrate_repositories`
(`src/repositories/migrator.rs`, lines 119-151): create the key directory,
stage the two SSH keys (push key first, then pull key; each failure is
fatal), fan out one task per repository, await all of them (`join_all`
followed by the await loop), log each per-repository failure with `eprintln`
without propagating it, then clear the progress bars and return `Ok(())`. -/
def migrate_repositories (env : Env) (repositories : List Repository) :
    BatchOutcome :=
  match env.keysTempDir with
  | .error e => ⟨[], .error e⟩
  | .ok _ =>
    match env.storeSshKey "push" with
    | .error e => ⟨[], .error e⟩
    | .ok _ =>
      match env.storeSshKey "pull" with
      | .error e => ⟨[Event.sshKeyStored "push"], .error e⟩
      | .ok _ =>
        match env.progressClear with
        | .error e =>
          ⟨[Event.sshKeyStored "push", Event.sshKeyStored "pull"] ++
            batchTaskEvents env repositories ++
            batchLogEvents env repositories, .error e⟩
        | .ok _ =>
          ⟨[Event.sshKeyStored "push", Event.sshKeyStored "pull"] ++
            batchTaskEvents env repositories ++
            batchLogEvents env repositories, .ok ()⟩

/-- Sequential loop over a list issuing one GitHub call per element with
early abort on the first error: the shape of the `for` loops in
`add_members_to_team` and `assign_repositories_to_team`. -/
def runGhSeq (call : α → Github.GhCall)
    (res : α → Except Github.GhError Unit) :
    List α → List Event × Except EngineError Unit
  | [] => ([], .ok ())
  | x :: rest =>
    match res x with
    | .error e => ([.gh (call x)], .error (.gh e))
    | .ok _ =>
      (.gh (call x) :: (runGhSeq call res rest).1,
        (runGhSeq call res rest).2)

/-- Embedding of `Migrator::run` (`src/repositories/migrator.rs`,
lines 305-336): dispatch of one action to its helper. -/
def run (env : Env) (action : Action) :
    List Event × Except EngineError Unit :=
  match action with
  | .createTeam name repositories =>
    match env.github.createTeamResult name repositories with
    | .error e => ([.gh (.createTeam name repositories)], .error (.gh e))
    | .ok _ => ([.gh (.createTeam name repositories)], .ok ())
  | .migrateRepositories repositories =>
    ((migrate_repositories env repositories).events,
      (migrate_repositories env repositories).result)
  | .assignRepositoriesToTeam _team_name team_slug permission repositories =>
    runGhSeq (fun r => .assignRepositoryToTeam team_slug permission r)
      (fun r => env.github.assignRepositoryToTeamResult team_slug permission r)
      repositories
  | .addMembersToTeam _team_name team_slug members =>
    runGhSeq (fun m => .updateTeamMembership team_slug m)
      (fun m => env.github.updateTeamMembershipResult team_slug m) members
  | .setRepositoryDefaultBranch repository_name branch =>
    match env.github.setRepositoryDefaultBranchResult repository_name branch with
    | .error e =>
      ([.gh (.setRepositoryDefaultBranch repository_name branch)],
        .error (.gh e))
    | .ok _ =>
      ([.gh (.setRepositoryDefaultBranch repository_name branch)], .ok ())

/-- Embedding of the action loop of `Migrator::migrate`
(`for action in actions { let _ = self.run(&action).await?; }`): each
iteration emits a `runInvoked` marker followed by the events of `run`, and
an error aborts the loop. -/
def runActions (env : Env) : List Action → List Event × Except EngineError Unit
  | [] => ([], .ok ())
  | a :: rest =>
    match (run env a).2 with
    | .error e => (Event.runInvoked a :: (run env a).1, .error e)
    | .ok _ =>
      (Event.runInvoked a :: ((run env a).1 ++ (runActions env rest).1),
        (runActions env rest).2)

/-- Embedding of `Migrator::migrate` (`src/repositories/migrator.rs`,
lines 85-110): open and parse the plan file, check the version by exact
string equality, print the description (pure), ask for confirmation, then
run the actions in order. -/
def migrate (env : Env) (version : String) :
    List Event × Except EngineError Unit :=
  match env.loadResult with
  | .error e => ([], .error e)
  | .ok migration =>
    if migration.version ≠ version then
      ([], .error (.versionMismatch version migration.version))
    else
      match env.confirmResult with
      | .error e => ([], .error e)
      | .ok confirmed =>
        if !confirmed then ([], .error .canceled)
        else runActions env migration.actions

/-- Projection of a trace event to the action of a `runInvoked` marker. -/
def eventAction : Event → Option Action
  | .runInvoked a => some a
  | _ => none

/-- Actions on which the loop invoked `run`, read off a trace. -/
def runInvocations (events : List Event) : List Action :=
  events.filterMap eventAction

/-! ### Trace lemmas for the repository-migration engine -/

theorem create_repository_calls_shape (env : Github.GithubEnv)
    (name : String) :
    (Github.create_repository env name).1 =
        [Github.GhCall.createRepository name] ∨
      (Github.create_repository env name).1 =
        [Github.GhCall.createRepository name,
          Github.GhCall.getRepository name] := by
  unfold Github.create_repository
  split
  · left; rfl
  · split
    · split
      · right; rfl
      · right; rfl
    · left; rfl

theorem taskPrefixEvents_no_run (env : Env) (repo : Repository) :
    ∀ ev ∈ taskPrefixEvents env repo, eventAction ev = none := by
  intro ev hev
  simp only [taskPrefixEvents, List.mem_append, List.mem_cons,
    List.mem_singleton, List.not_mem_nil, or_false, List.mem_map] at hev
  rcases hev with (rfl | rfl) | ⟨c, _, rfl⟩ <;> rfl

theorem migrate_repository_no_run (env : Env) (repo : Repository) :
    ∀ ev ∈ (migrate_repository env repo).events, eventAction ev = none := by
  intro ev hev
  unfold migrate_repository at hev
  split at hev
  · simp at hev
  · split at hev
    · exact taskPrefixEvents_no_run env repo ev hev
    · split at hev
      · simp only [List.mem_append, List.mem_singleton] at hev
        rcases hev with hev | rfl
        · exact taskPrefixEvents_no_run env repo ev hev
        · rfl
      · split at hev
        · simp only [List.mem_append, List.mem_singleton] at hev
          rcases hev with hev | rfl
          · exact taskPrefixEvents_no_run env repo ev hev
          · rfl
        · simp only [List.mem_append, List.mem_cons, List.mem_singleton,
            List.not_mem_nil, or_false] at hev
          rcases hev with hev | (rfl | rfl)
          · exact taskPrefixEvents_no_run env repo ev hev
          · rfl
          · rfl

theorem migrate_repositories_no_run (env : Env)
    (repositories : List Repository) :
    ∀ ev ∈ (migrate_repositories env repositories).events,
      eventAction ev = none := by
  have hbatch : ∀ ev ∈ batchTaskEvents env repositories,
      eventAction ev = none := by
    intro ev hev
    simp only [batchTaskEvents, List.mem_flatten, List.mem_map] at hev
    obtain ⟨l, ⟨r, _, rfl⟩, hl⟩ := hev
    exact migrate_repository_no_run env r ev hl
  have hlog : ∀ ev ∈ batchLogEvents env repositories,
      eventAction ev = none := by
    intro ev hev
    simp only [batchLogEvents, List.mem_filterMap, List.mem_map] at hev
    obtain ⟨o, _, ho⟩ := hev
    revert ho
    cases o.result with
    | error e => intro ho; cases ho; rfl
    | ok r => intro ho; cases ho
  intro ev hev
  unfold migrate_repositories at hev
  split at hev
  · simp at hev
  · split at hev
    · simp at hev
    · split at hev
      · simp only [List.mem_singleton] at hev
        subst hev; rfl
      · split at hev <;>
        · simp only [List.mem_append, List.mem_cons, List.mem_singleton,
            List.not_mem_nil, or_false] at hev
          rcases hev with ((rfl | rfl) | hev) | hev
          · rfl
          · rfl
          · exact hbatch ev hev
          · exact hlog ev hev

theorem runGhSeq_no_run (call : α → Github.GhCall)
    (res : α → Except Github.GhError Unit) (l : List α) :
    ∀ ev ∈ (runGhSeq call res l).1, eventAction ev = none := by
  induction l with
  | nil => intro ev hev; simp [runGhSeq] at hev
  | cons x rest ih =>
    intro ev hev
    unfold runGhSeq at hev
    split at hev
    · simp only [List.mem_singleton] at hev
      subst hev; rfl
    · simp only [List.mem_cons] at hev
      rcases hev with rfl | hev
      · rfl
      · exact ih ev hev

theorem run_no_run (env : Env) (action : Action) :
    ∀ ev ∈ (run env action).1, eventAction ev = none := by
  intro ev hev
  cases action with
  | migrateRepositories repositories =>
    exact migrate_repositories_no_run env repositories ev hev
  | createTeam name repositories =>
    simp only [run] at hev
    split at hev <;> (simp only [List.mem_singleton] at hev; subst hev; rfl)
  | addMembersToTeam team_name team_slug members =>
    exact runGhSeq_no_run _ _ members ev hev
  | assignRepositoriesToTeam team_name team_slug permission repositories =>
    exact runGhSeq_no_run _ _ repositories ev hev
  | setRepositoryDefaultBranch repository_name branch =>
    simp only [run] at hev
    split at hev <;> (simp only [List.mem_singleton] at hev; subst hev; rfl)

theorem runInvocations_run (env : Env) (action : Action) :
    runInvocations (run env action).1 = [] := by
  rw [runInvocations, List.filterMap_eq_nil_iff]
  exact run_no_run env action

theorem runActions_cons_error {env : Env} {a : Action} {e : EngineError}
    (rest : List Action) (h : (run env a).2 = .error e) :
    runActions env (a :: rest) =
      (Event.runInvoked a :: (run env a).1, .error e) := by
  simp only [runActions]
  rw [h]

theorem runActions_cons_ok {env : Env} {a : Action} {u : Unit}
    (rest : List Action) (h : (run env a).2 = .ok u) :
    runActions env (a :: rest) =
      (Event.runInvoked a :: ((run env a).1 ++ (runActions env rest).1),
        (runActions env rest).2) := by
  simp only [runActions]
  rw [h]

theorem runActions_take (env : Env) :
    ∀ l : List Action, ∃ k,
      runInvocations (runActions env l).1 = l.take k := by
  intro l
  induction l with
  | nil => exact ⟨0, rfl⟩
  | cons a rest ih =>
    cases h : (run env a).2 with
    | error e =>
      refine ⟨1, ?_⟩
      rw [runActions_cons_error rest h]
      simp only [runInvocations, List.filterMap_cons, eventAction]
      rw [List.filterMap_eq_nil_iff.mpr (run_no_run env a)]
      rfl
    | ok u =>
      obtain ⟨k, hk⟩ := ih
      refine ⟨k + 1, ?_⟩
      rw [runActions_cons_ok rest h]
      simp only [runInvocations, List.filterMap_cons, List.filterMap_append,
        eventAction]
      rw [List.filterMap_eq_nil_iff.mpr (run_no_run env a)]
      simp only [runInvocations] at hk
      simp [hk]

theorem runActions_all_ok (env : Env) :
    ∀ l : List Action, (∀ a ∈ l, (run env a).2 = .ok ()) →
      runInvocations (runActions env l).1 = l ∧
        (runActions env l).2 = .ok () := by
  intro l
  induction l with
  | nil => intro _; exact ⟨rfl, rfl⟩
  | cons a rest ih =>
    intro hok
    have ha := hok a (List.mem_cons_self a rest)
    obtain ⟨hrest, hres⟩ := ih (fun b hb => hok b (List.mem_cons_of_mem a hb))
    rw [runActions_cons_ok rest ha]
    constructor
    · simp only [runInvocations, List.filterMap_cons, List.filterMap_append,
        eventAction]
      rw [List.filterMap_eq_nil_iff.mpr (run_no_run env a)]
      simp only [runInvocations] at hrest
      simp [hrest]
    · exact hres

theorem runActions_abort (env : Env) {e : EngineError} :
    ∀ (l1 : List Action) (a : Action) (l2 : List Action),
      (∀ b ∈ l1, (run env b).2 = .ok ()) → (run env a).2 = .error e →
      (runActions env (l1 ++ a :: l2)).2 = .error e ∧
        runInvocations (runActions env (l1 ++ a :: l2)).1 = l1 ++ [a] := by
  intro l1
  induction l1 with
  | nil =>
    intro a l2 _ ha
    rw [List.nil_append, runActions_cons_error l2 ha]
    refine ⟨rfl, ?_⟩
    simp only [runInvocations, List.filterMap_cons, eventAction]
    rw [List.filterMap_eq_nil_iff.mpr (run_no_run env a)]
    rfl
  | cons b rest ih =>
    intro a l2 hok ha
    have hb := hok b (List.mem_cons_self b rest)
    obtain ⟨hres, hinv⟩ :=
      ih a l2 (fun c hc => hok c (List.mem_cons_of_mem b hc)) ha
    rw [List.cons_append, runActions_cons_ok (rest ++ a :: l2) hb]
    refine ⟨hres, ?_⟩
    simp only [runInvocations, List.filterMap_cons, List.filterMap_append,
      eventAction]
    rw [List.filterMap_eq_nil_iff.mpr (run_no_run env b)]
    simp only [runInvocations] at hinv
    simp [hinv]

theorem migrate_confirmed {env : Env} {version : String} {m : Migration}
    (hl : env.loadResult = .ok m) (hv : m.version = version)
    (hc : env.confirmResult = .ok true) :
    migrate env version = runActions env m.actions := by
  simp only [migrate, hl]
  rw [hv]
  simp [hc]

end Repositories

/-! ## The CircleCI client (`src/circleci/api/mod.rs`) and engine
(`src/circleci/migrator.rs`) -/

namespace Circleci

/-- HTTP-level error of a CircleCI request. -/
inductive CircleError where
  | status (code : Nat)
  | network
deriving DecidableEq, Repr

/-- CircleCI client calls the engine can issue. A `sleep` event is included
in the call alphabet so that the absence of any delay between retry attempts
is expressible; the source never emits it. -/
inductive CircleCall where
  | postExportEnvironment (from_repo : String) (to_repo : String)
      (env_vars : List String)
  | getEnvVars (repo : String)
  | postCreateContext (name : String)
  | putContextVariable (context_id : String) (name : String) (value : String)
  | postStartPipeline (repo : String) (branch : String)
  | sleep
deriving DecidableEq, Repr

/-- Oracle of CircleCI responses. The export endpoint is eventually
consistent, so the responses of the repeated POST and of the read-back GET
are keyed by the attempt number at which they are issued. -/
structure CircleEnv where
  postExportEnvironment : Nat → Except CircleError Unit
  getEnvVarsResult : Nat → Except CircleError (List EnvVar)
  createContextResult : String → Except CircleError Context
  addContextVariableResult : String → String → String →
    Except CircleError Unit
  startPipelineResult : String → String → Except CircleError Unit

/-- Upper bound of export attempts: `const MAX_ATTEMPTS: u8 = 5` in
`CircleCiApi::export_environment`. -/
def MAX_ATTEMPTS : Nat := 5

/-- Embedding of the retry loop of `CircleCiApi::export_environment`
(`src/circleci/api/mod.rs`, lines 129-138):
`while variables.len() < env_vars.len() && attempts_made < MAX_ATTEMPTS`
issue the POST, then read the destination project variables back, then
increment the attempt counter; request errors propagate through `?`. -/
def exportLoop (env : CircleEnv) (from_repo to_repo : String)
    (env_vars : List String) (vars : List EnvVar) (attempts_made : Nat) :
    List CircleCall × Except CircleError Unit :=
  if h : vars.length < env_vars.length ∧ attempts_made < MAX_ATTEMPTS then
    match env.postExportEnvironment attempts_made with
    | .error e =>
      ([.postExportEnvironment from_repo to_repo env_vars], .error e)
    | .ok _ =>
      match env.getEnvVarsResult attempts_made with
      | .error e =>
        ([.postExportEnvironment from_repo to_repo env_vars,
          .getEnvVars to_repo], .error e)
      | .ok vars2 =>
        (.postExportEnvironment from_repo to_repo env_vars ::
          .getEnvVars to_repo ::
            (exportLoop env from_repo to_repo env_vars vars2
              (attempts_made + 1)).1,
          (exportLoop env from_repo to_repo env_vars vars2
            (attempts_made + 1)).2)
  else
    ([], .ok ())
termination_by MAX_ATTEMPTS - attempts_made
decreasing_by
  omega

/-- Embedding of `CircleCiApi::export_environment`
(`src/circleci/api/mod.rs`, lines 109-141): the loop starts with an empty
variable list and zero attempts made, and the routine returns `Ok(())`
whether or not consistency was reached within the attempt budget. -/
def export_environment (env : CircleEnv) (from_repo to_repo : String)
    (env_vars : List String) : List CircleCall × Except CircleError Unit :=
  exportLoop env from_repo to_repo env_vars [] 0

/-- Errors of the CircleCI engine, one constructor per distinct error
source in `src/circleci/migrator.rs`. -/
inductive EngineError where
  | io
  | parse
  | versionMismatch (expected : String) (found : String)
  | prompt
  | canceled
  | api (e : CircleError)
deriving DecidableEq, Repr

/-- Events of the CircleCI engine. -/
inductive Event where
  | runInvoked (action : Action)
  | call (c : CircleCall)
deriving DecidableEq, Repr

/-- Environment of one CircleCI engine run. -/
structure Env where
  loadResult : Except EngineError Migration
  confirmResult : Except EngineError Bool
  circle : CircleEnv

/-- Embedding of `Migrator::parse_migration_file`
(`src/circleci/migrator.rs`, lines 68-75): open and parse the plan file,
then reject it when its `version` differs from the running tool version by
exact string comparison. -/
def parse_migration_file (env : Env) (version : String) :
    Except EngineError Migration :=
  match env.loadResult with
  | .error e => .error e
  | .ok migration =>
    if migration.version ≠ version then
      .error (.versionMismatch version migration.version)
    else .ok migration

/-- Sequential loop adding the context variables inside `create_context`
(`for var in variables { ... add_context_variable(...).await? }`). -/
def runAddVars (env : Env) (context_id : String) :
    List EnvVar → List Event × Except EngineError Unit
  | [] => ([], .ok ())
  | v :: rest =>
    match env.circle.addContextVariableResult context_id v.name v.value with
    | .error e =>
      ([.call (.putContextVariable context_id v.name v.value)], .error (.api e))
    | .ok _ =>
      (.call (.putContextVariable context_id v.name v.value) ::
          (runAddVars env context_id rest).1,
        (runAddVars env context_id rest).2)

/-- Embedding of `Migrator::run` (`src/circleci/migrator.rs`, lines 77-93)
together with its helpers `create_context`, `export_env_variables` and
`start_pipeline`. -/
def run (env : Env) (action : Action) :
    List Event × Except EngineError Unit :=
  match action with
  | .createContext name vars =>
    match env.circle.createContextResult name with
    | .error e => ([.call (.postCreateContext name)], .error (.api e))
    | .ok ctx =>
      (.call (.postCreateContext name) :: (runAddVars env ctx.id vars).1,
        (runAddVars env ctx.id vars).2)
  | .moveEnvironmentalVariables from_repository_name to_repository_name
      env_vars =>
    ((export_environment env.circle from_repository_name
        to_repository_name env_vars).1.map Event.call,
      match (export_environment env.circle from_repository_name
          to_repository_name env_vars).2 with
      | .error e => .error (.api e)
      | .ok _ => .ok ())
  | .startPipeline repository_name branch =>
    match env.circle.startPipelineResult repository_name branch with
    | .error e =>
      ([.call (.postStartPipeline repository_name branch)], .error (.api e))
    | .ok _ =>
      ([.call (.postStartPipeline repository_name branch)], .ok ())

/-- Embedding of the action loop of the CircleCI `Migrator::migrate`
(`src/circleci/migrator.rs`, lines 58-60). -/
def runActions (env : Env) : List Action → List Event × Except EngineError Unit
  | [] => ([], .ok ())
  | a :: rest =>
    match (run env a).2 with
    | .error e => (Event.runInvoked a :: (run env a).1, .error e)
    | .ok _ =>
      (Event.runInvoked a :: ((run env a).1 ++ (runActions env rest).1),
        (runActions env rest).2)

/-- Embedding of the CircleCI `Migrator::migrate`
(`src/circleci/migrator.rs`, lines 44-66): parse and version-check the plan,
print the description, confirm, then run the actions in order. -/
def migrate (env : Env) (version : String) :
    List Event × Except EngineError Unit :=
  match parse_migration_file env version with
  | .error e => ([], .error e)
  | .ok migration =>
    match env.confirmResult with
    | .error e => ([], .error e)
    | .ok confirmed =>
      if !confirmed then ([], .error .canceled)
      else runActions env migration.actions

/-- Projection of a CircleCI trace event to the action of a `runInvoked`
marker. -/
def eventAction : Event → Option Action
  | .runInvoked a => some a
  | _ => none

/-- Actions on which the CircleCI loop invoked `run`, read off a trace. -/
def runInvocations (events : List Event) : List Action :=
  events.filterMap eventAction

/-! ### Trace lemmas for the CircleCI engine -/

theorem exportLoop_stop {env : CircleEnv} {from_repo to_repo : String}
    {env_vars : List String} {vars : List EnvVar} {attempts_made : Nat}
    (h : ¬ (vars.length < env_vars.length ∧ attempts_made < MAX_ATTEMPTS)) :
    exportLoop env from_repo to_repo env_vars vars attempts_made =
      ([], .ok ()) := by
  rw [exportLoop.eq_def, dif_neg h]

theorem exportLoop_step {env : CircleEnv} {from_repo to_repo : String}
    {env_vars : List String} {vars vs2 : List EnvVar} {attempts_made : Nat}
    (h1 : vars.length < env_vars.length) (h2 : attempts_made < MAX_ATTEMPTS)
    (hp : env.postExportEnvironment attempts_made = .ok ())
    (hg : env.getEnvVarsResult attempts_made = .ok vs2) :
    exportLoop env from_repo to_repo env_vars vars attempts_made =
      (CircleCall.postExportEnvironment from_repo to_repo env_vars ::
        CircleCall.getEnvVars to_repo ::
          (exportLoop env from_repo to_repo env_vars vs2
            (attempts_made + 1)).1,
        (exportLoop env from_repo to_repo env_vars vs2
          (attempts_made + 1)).2) := by
  rw [exportLoop.eq_def, dif_pos ⟨h1, h2⟩, hp, hg]

theorem runAddVars_no_run (env : Env) (context_id : String)
    (l : List EnvVar) :
    ∀ ev ∈ (runAddVars env context_id l).1, eventAction ev = none := by
  induction l with
  | nil => intro ev hev; simp [runAddVars] at hev
  | cons v rest ih =>
    intro ev hev
    unfold runAddVars at hev
    split at hev
    · simp only [List.mem_singleton] at hev
      subst hev; rfl
    · simp only [List.mem_cons] at hev
      rcases hev with rfl | hev
      · rfl
      · exact ih ev hev

theorem cc_run_no_run (env : Env) (action : Action) :
    ∀ ev ∈ (run env action).1, eventAction ev = none := by
  intro ev hev
  cases action with
  | moveEnvironmentalVariables from_repository_name to_repository_name
      env_vars =>
    simp only [run, List.mem_map] at hev
    obtain ⟨c, _, rfl⟩ := hev
    rfl
  | createContext name vars =>
    simp only [run] at hev
    split at hev
    · simp only [List.mem_singleton] at hev
      subst hev; rfl
    · simp only [List.mem_cons] at hev
      rcases hev with rfl | hev
      · rfl
      · exact runAddVars_no_run env _ vars ev hev
  | startPipeline repository_name branch =>
    simp only [run] at hev
    split at hev <;> (simp only [List.mem_singleton] at hev; subst hev; rfl)

theorem cc_runActions_cons_error {env : Env} {a : Action} {e : EngineError}
    (rest : List Action) (h : (run env a).2 = .error e) :
    runActions env (a :: rest) =
      (Event.runInvoked a :: (run env a).1, .error e) := by
  simp only [runActions]
  rw [h]

theorem cc_runActions_cons_ok {env : Env} {a : Action} {u : Unit}
    (rest : List Action) (h : (run env a).2 = .ok u) :
    runActions env (a :: rest) =
      (Event.runInvoked a :: ((run env a).1 ++ (runActions env rest).1),
        (runActions env rest).2) := by
  simp only [runActions]
  rw [h]

theorem cc_runActions_take (env : Env) :
    ∀ l : List Action, ∃ k,
      runInvocations (runActions env l).1 = l.take k := by
  intro l
  induction l with
  | nil => exact ⟨0, rfl⟩
  | cons a rest ih =>
    cases h : (run env a).2 with
    | error e =>
      refine ⟨1, ?_⟩
      rw [cc_runActions_cons_error rest h]
      simp only [runInvocations, List.filterMap_cons, eventAction]
      rw [List.filterMap_eq_nil_iff.mpr (cc_run_no_run env a)]
      rfl
    | ok u =>
      obtain ⟨k, hk⟩ := ih
      refine ⟨k + 1, ?_⟩
      rw [cc_runActions_cons_ok rest h]
      simp only [runInvocations, List.filterMap_cons, List.filterMap_append,
        eventAction]
      rw [List.filterMap_eq_nil_iff.mpr (cc_run_no_run env a)]
      simp only [runInvocations] at hk
      simp [hk]

theorem cc_runActions_all_ok (env : Env) :
    ∀ l : List Action, (∀ a ∈ l, (run env a).2 = .ok ()) →
      runInvocations (runActions env l).1 = l ∧
        (runActions env l).2 = .ok () := by
  intro l
  induction l with
  | nil => intro _; exact ⟨rfl, rfl⟩
  | cons a rest ih =>
    intro hok
    have ha := hok a (List.mem_cons_self a rest)
    obtain ⟨hrest, hres⟩ := ih (fun b hb => hok b (List.mem_cons_of_mem a hb))
    rw [cc_runActions_cons_ok rest ha]
    constructor
    · simp only [runInvocations, List.filterMap_cons, List.filterMap_append,
        eventAction]
      rw [List.filterMap_eq_nil_iff.mpr (cc_run_no_run env a)]
      simp only [runInvocations] at hrest
      simp [hrest]
    · exact hres

theorem parse_migration_file_ok {env : Env} {version : String}
    {m : Migration} (hl : env.loadResult = .ok m)
    (hv : m.version = version) :
    parse_migration_file env version = .ok m := by
  simp only [parse_migration_file, hl]
  rw [hv]
  simp

theorem parse_migration_file_mismatch {env : Env} {version : String}
    {m : Migration} (hl : env.loadResult = .ok m)
    (hv : m.version ≠ version) :
    parse_migration_file env version =
      .error (.versionMismatch version m.version) := by
  simp only [parse_migration_file, hl]
  rw [if_pos hv]

theorem cc_migrate_confirmed {env : Env} {version : String} {m : Migration}
    (hl : env.loadResult = .ok m) (hv : m.version = version)
    (hc : env.confirmResult = .ok true) :
    migrate env version = runActions env m.actions := by
  unfold migrate
  rw [parse_migration_file_ok hl hv]
  simp [hc]


end Circleci

/-! ## Concrete environments used to evaluate the embedding

Every oracle below answers independently of its argument, so that closed
evaluation never has to force the string-replacement computation. -/

namespace Repositories

/-- Sample GitHub repository metadata returned by the sample oracles. -/
def ghRepoW : Github.Repository :=
  ⟨1, "alpha", "the-org/alpha", "git-ssh-url-alpha", "main"⟩

/-- GitHub oracle answering every request successfully. -/
def githubEnvOk : Github.GithubEnv :=
  ⟨fun _ => .ok ghRepoW, fun _ => .ok ghRepoW, fun _ _ => .ok (),
    fun _ _ => .ok (), fun _ _ _ => .ok (), fun _ _ => .ok ()⟩

/-- GitHub oracle whose repository-creation POST answers 422 and whose
follow-up GET succeeds. -/
def githubEnv422 : Github.GithubEnv :=
  ⟨fun _ => .error (.status 422), fun _ => .ok ghRepoW, fun _ _ => .ok (),
    fun _ _ => .ok (), fun _ _ _ => .ok (), fun _ _ => .ok ()⟩

/-- GitHub oracle whose default-branch PATCH fails. -/
def githubEnvBranchFail : Github.GithubEnv :=
  ⟨fun _ => .ok ghRepoW, fun _ => .ok ghRepoW, fun _ _ => .ok (),
    fun _ _ => .ok (), fun _ _ _ => .ok (), fun _ _ => .error .network⟩

/-- Sample source repository whose full name carries the `moodup/`
project prefix. -/
def repoW : Repository :=
  ⟨"ssh-clone-url-alpha", "alpha", "moodup/alpha"⟩

/-- Sample plan with two actions that touch only the GitHub client. -/
def migrationW : Migration :=
  ⟨"0.3.3", [Action.createTeam "team" ["the-org/alpha"],
    Action.setRepositoryDefaultBranch "the-org/alpha" "main"]⟩

/-- Engine environment in which every external response succeeds. -/
def envOk : Env :=
  ⟨.ok migrationW, .ok true, githubEnvOk, .ok (), fun _ => .ok (),
    .ok (), fun _ => .ok (), fun _ => .ok (), fun _ => .ok (),
    fun _ => .ok ()⟩

/-- Engine environment in which the operator declines confirmation. -/
def envDeclined : Env :=
  ⟨.ok migrationW, .ok false, githubEnvOk, .ok (), fun _ => .ok (),
    .ok (), fun _ => .ok (), fun _ => .ok (), fun _ => .ok (),
    fun _ => .ok ()⟩

/-- Engine environment whose plan file carries a different version. -/
def envWrongVersion : Env :=
  ⟨.ok ⟨"9.9.9", migrationW.actions⟩, .ok true, githubEnvOk, .ok (),
    fun _ => .ok (), .ok (), fun _ => .ok (), fun _ => .ok (),
    fun _ => .ok (), fun _ => .ok ()⟩

/-- Engine environment in which every mirror push fails. -/
def envPushFail : Env :=
  ⟨.ok migrationW, .ok true, githubEnvOk, .ok (), fun _ => .ok (),
    .ok (), fun _ => .ok (), fun _ => .ok (),
    fun _ => .error (.git "push denied"), fun _ => .ok ()⟩

/-- Engine environment in which setting the default branch fails. -/
def envBranchFail : Env :=
  ⟨.ok migrationW, .ok true, githubEnvBranchFail, .ok (), fun _ => .ok (),
    .ok (), fun _ => .ok (), fun _ => .ok (), fun _ => .ok (),
    fun _ => .ok ()⟩

/-- Replacement of the `cloneResult` oracle, all other responses kept. -/
def setCloneResult (env : Env) (f : String → Except EngineError Unit) :
    Env :=
  ⟨env.loadResult, env.confirmResult, env.github, env.keysTempDir,
    env.storeSshKey, env.progressClear, env.repoTempDir, f,
    env.pushResult, env.closeResult⟩

end Repositories

namespace Circleci

/-- CircleCI oracle whose export read-back never returns any variable and
whose other requests succeed. -/
def circleEnvNever : CircleEnv :=
  ⟨fun _ => .ok (), fun _ => .ok [], fun _ => .ok ⟨"ctx", "ctx-id"⟩,
    fun _ _ _ => .ok (), fun _ _ => .ok ()⟩

/-- Sample CircleCI plan with two actions that avoid the export loop. -/
def ccMigrationW : Migration :=
  ⟨"0.3.3", [Action.createContext "deploy" [⟨"K", "V"⟩],
    Action.startPipeline "the-org/alpha" "main"]⟩

/-- CircleCI engine environment in which every response succeeds. -/
def ccEnvOk : Env :=
  ⟨.ok ccMigrationW, .ok true, circleEnvNever⟩

/-- CircleCI engine environment in which the operator declines. -/
def ccEnvDeclined : Env :=
  ⟨.ok ccMigrationW, .ok false, circleEnvNever⟩

/-- CircleCI engine environment whose plan carries a different version. -/
def ccEnvWrongVersion : Env :=
  ⟨.ok ⟨"9.9.9", ccMigrationW.actions⟩, .ok true, circleEnvNever⟩

end Circleci



/-! ### Per-repository task lemmas -/

namespace Repositories

theorem mem_taskPrefixEvents (env : Env) (repo : Repository) :
    Event.tempDirCreated (repoLabel repo) ∈ taskPrefixEvents env repo ∧
      Event.cloneInvoked repo.clone_link ∈ taskPrefixEvents env repo ∧
      Event.gh (.createRepository (ghRepoName repo)) ∈
        taskPrefixEvents env repo := by
  refine ⟨by simp [taskPrefixEvents], by simp [taskPrefixEvents], ?_⟩
  rcases create_repository_calls_shape env.github (ghRepoName repo) with
    h | h <;> simp [taskPrefixEvents, h]

theorem migrate_repository_eval_tempErr {env : Env} {repo : Repository}
    {e : EngineError} (h : env.repoTempDir (repoLabel repo) = .error e) :
    migrate_repository env repo = ⟨[], .error e, false⟩ := by
  simp [migrate_repository, h]

theorem migrate_repository_eval_createErr {env : Env} {repo : Repository}
    {e : Github.GhError} (h : env.repoTempDir (repoLabel repo) = .ok ())
    (hc : (Github.create_repository env.github (ghRepoName repo)).2 =
      .error e) :
    migrate_repository env repo =
      ⟨taskPrefixEvents env repo, .error (.gh e), false⟩ := by
  simp [migrate_repository, h, hc]

theorem migrate_repository_eval_pushErr {env : Env} {repo : Repository}
    {gh_repo : Github.Repository} {e : EngineError}
    (h : env.repoTempDir (repoLabel repo) = .ok ())
    (hc : (Github.create_repository env.github (ghRepoName repo)).2 =
      .ok gh_repo)
    (hp : env.pushResult gh_repo.ssh_url = .error e) :
    migrate_repository env repo =
      ⟨taskPrefixEvents env repo ++ [Event.pushInvoked gh_repo.ssh_url],
        .error e, false⟩ := by
  simp [migrate_repository, h, hc, hp]

theorem migrate_repository_eval_closeErr {env : Env} {repo : Repository}
    {gh_repo : Github.Repository} {e : EngineError}
    (h : env.repoTempDir (repoLabel repo) = .ok ())
    (hc : (Github.create_repository env.github (ghRepoName repo)).2 =
      .ok gh_repo)
    (hp : env.pushResult gh_repo.ssh_url = .ok ())
    (hcl : env.closeResult (repoLabel repo) = .error e) :
    migrate_repository env repo =
      ⟨taskPrefixEvents env repo ++ [Event.pushInvoked gh_repo.ssh_url],
        .error e, true⟩ := by
  simp [migrate_repository, h, hc, hp, hcl]

theorem migrate_repository_eval_ok {env : Env} {repo : Repository}
    {gh_repo : Github.Repository}
    (h : env.repoTempDir (repoLabel repo) = .ok ())
    (hc : (Github.create_repository env.github (ghRepoName repo)).2 =
      .ok gh_repo)
    (hp : env.pushResult gh_repo.ssh_url = .ok ())
    (hcl : env.closeResult (repoLabel repo) = .ok ()) :
    migrate_repository env repo =
      ⟨taskPrefixEvents env repo ++ [Event.pushInvoked gh_repo.ssh_url,
          Event.tempDirRemoved (repoLabel repo)],
        .ok repo, false⟩ := by
  simp [migrate_repository, h, hc, hp, hcl]

theorem migrate_repository_events_head (env : Env) (repo : Repository)
    (h : env.repoTempDir (repoLabel repo) = .ok ()) :
    ∃ tail, (migrate_repository env repo).events =
      taskPrefixEvents env repo ++ tail := by
  cases hc : (Github.create_repository env.github (ghRepoName repo)).2 with
  | error e => exact ⟨[], by rw [migrate_repository_eval_createErr h hc]; simp⟩
  | ok gh_repo =>
    cases hp : env.pushResult gh_repo.ssh_url with
    | error e => exact ⟨_, by rw [migrate_repository_eval_pushErr h hc hp]⟩
    | ok u =>
      cases u
      cases hcl : env.closeResult (repoLabel repo) with
      | error e =>
        exact ⟨_, by rw [migrate_repository_eval_closeErr h hc hp hcl]⟩
      | ok u2 =>
        cases u2
        exact ⟨_, by rw [migrate_repository_eval_ok h hc hp hcl]⟩

theorem migrate_repository_push_mem (env : Env) (repo : Repository)
    {gh_repo : Github.Repository}
    (h : env.repoTempDir (repoLabel repo) = .ok ())
    (hc : (Github.create_repository env.github (ghRepoName repo)).2 =
      .ok gh_repo) :
    Event.pushInvoked gh_repo.ssh_url ∈
      (migrate_repository env repo).events := by
  cases hp : env.pushResult gh_repo.ssh_url with
  | error e => rw [migrate_repository_eval_pushErr h hc hp]; simp
  | ok u =>
    cases u
    cases hcl : env.closeResult (repoLabel repo) with
    | error e => rw [migrate_repository_eval_closeErr h hc hp hcl]; simp
    | ok u2 =>
      cases u2
      rw [migrate_repository_eval_ok h hc hp hcl]
      simp

/-! ### Batch lemmas -/

theorem migrate_repositories_all (env : Env)
    (repositories : List Repository) (h1 : env.keysTempDir = .ok ())
    (h2 : env.storeSshKey "push" = .ok ())
    (h3 : env.storeSshKey "pull" = .ok ())
    (h4 : env.progressClear = .ok ()) :
    migrate_repositories env repositories =
      ⟨[Event.sshKeyStored "push", Event.sshKeyStored "pull"] ++
        batchTaskEvents env repositories ++
        batchLogEvents env repositories, .ok ()⟩ := by
  unfold migrate_repositories
  rw [h1, h2, h3, h4]

theorem mem_batchTaskEvents {env : Env} {repositories : List Repository}
    {r : Repository} {ev : Event} (hr : r ∈ repositories)
    (hev : ev ∈ (migrate_repository env r).events) :
    ev ∈ batchTaskEvents env repositories := by
  simp only [batchTaskEvents, List.mem_flatten, List.mem_map]
  exact ⟨(migrate_repository env r).events, ⟨r, hr, rfl⟩, hev⟩

theorem mem_batchLogEvents {env : Env} {repositories : List Repository}
    {r : Repository} {e : EngineError} (hr : r ∈ repositories)
    (he : (migrate_repository env r).result = .error e) :
    Event.failureLogged e ∈ batchLogEvents env repositories := by
  simp only [batchLogEvents, List.mem_filterMap, List.mem_map]
  refine ⟨migrate_repository env r, ⟨r, hr, rfl⟩, ?_⟩
  rw [he]

theorem run_migrateRepositories (env : Env)
    (repositories : List Repository) :
    run env (.migrateRepositories repositories) =
      ((migrate_repositories env repositories).events,
        (migrate_repositories env repositories).result) := rfl

end Repositories


/-! ## Claims -/

/-- C5: for every Action variant v (all eight variants across the two
enums, with arbitrary field values), deserializing the serialization of v
yields a value equal to v; and for every plan document,
load of save is the identity. -/
theorem action_serialization_roundtrip :
    (∀ a : Repositories.Action,
      Repositories.decodeAction (Repositories.encodeAction a) = some a) ∧
    (∀ a : Circleci.Action,
      Circleci.decodeAction (Circleci.encodeAction a) = some a) ∧
    (∀ m : Repositories.Migration,
      Repositories.decodeMigration (Repositories.encodeMigration m) =
        some m) ∧
    (∀ m : Circleci.Migration,
      Circleci.decodeMigration (Circleci.encodeMigration m) = some m) :=
  ⟨Repositories.decodeAction_encodeAction,
    Circleci.cc_decodeAction_encodeAction,
    Repositories.decodeMigration_encodeMigration,
    Circleci.cc_decodeMigration_encodeMigration⟩

/-- C8: `create_repository` returns the POST result on success; on a 422
(Unprocessable Entity, repository already exists) response it returns the
metadata fetched by the follow-up GET as success; any other error status is
returned as an error. -/
theorem create_repository_tolerates_already_exists :
    ∀ (env : Github.GithubEnv) (name : String),
      (∀ r, env.postCreateRepository name = .ok r →
        (Github.create_repository env name).2 = .ok r) ∧
      (∀ r, env.postCreateRepository name = .error (.status 422) →
        env.getRepositoryResult name = .ok r →
        (Github.create_repository env name).2 = .ok r) ∧
      (∀ e, env.postCreateRepository name = .error e →
        e ≠ .status 422 →
        (Github.create_repository env name).2 = .error e) := by
  intro env name
  refine ⟨?_, ?_, ?_⟩
  · intro r hr
    simp [Github.create_repository, hr]
  · intro r hpost hget
    simp [Github.create_repository, hpost, hget]
  · intro e hpost hne
    simp [Github.create_repository, hpost, hne]

/-- C8 witness: a 422 POST answer followed by a successful GET yields the
existing repository metadata as success. -/
theorem create_repository_tolerates_already_exists_witness :
    (Github.create_repository Repositories.githubEnv422 "alpha").2 =
      .ok Repositories.ghRepoW :=
  (create_repository_tolerates_already_exists Repositories.githubEnv422
      "alpha").2.1 Repositories.ghRepoW rfl rfl

/-- C3: a plan file whose version differs from the running tool version
(exact string inequality) makes both engines return the version-mismatch
error with an empty trace: no action is run and no collaborator method is
invoked. -/
theorem version_gate_blocks_run :
    (∀ (env : Repositories.Env) (version : String)
        (m : Repositories.Migration),
      env.loadResult = .ok m → m.version ≠ version →
      Repositories.migrate env version =
        ([], .error (.versionMismatch version m.version))) ∧
    (∀ (env : Circleci.Env) (version : String) (m : Circleci.Migration),
      env.loadResult = .ok m → m.version ≠ version →
      Circleci.parse_migration_file env version =
        .error (.versionMismatch version m.version) ∧
      Circleci.migrate env version =
        ([], .error (.versionMismatch version m.version))) := by
  constructor
  · intro env version m hl hv
    simp only [Repositories.migrate, hl]
    rw [if_pos hv]
  · intro env version m hl hv
    have hp := Circleci.parse_migration_file_mismatch hl hv
    refine ⟨hp, ?_⟩
    unfold Circleci.migrate
    rw [hp]

/-- C3 witness: a plan carrying version 9.9.9 against tool version 0.3.3
fails with a version mismatch and an empty trace. -/
theorem version_gate_blocks_run_witness :
    Repositories.migrate Repositories.envWrongVersion "0.3.3" =
      ([], .error (.versionMismatch "0.3.3" "9.9.9")) :=
  version_gate_blocks_run.1 Repositories.envWrongVersion "0.3.3"
    ⟨"9.9.9", Repositories.migrationW.actions⟩ rfl (by decide)

/-- C6 counterexample: at the declining environment the trace is empty, but
the engine result is the error `canceled`, returned through the same `Err`
channel as every failure — not a non-failure outcome as the claim
states. -/
theorem confirmation_decline_counterexample :
    (Repositories.migrate Repositories.envDeclined "0.3.3").1 = [] ∧
    (Repositories.migrate Repositories.envDeclined "0.3.3").2 =
      .error .canceled ∧
    (Repositories.migrate Repositories.envDeclined "0.3.3").2 ≠
      .ok () := by
  refine ⟨rfl, rfl, fun h => ?_⟩
  rw [show (Repositories.migrate Repositories.envDeclined "0.3.3").2 =
    .error .canceled from rfl] at h
  exact Except.noConfusion h

/-- C6 (amended): if the operator declines the confirmation prompt, both
engines make zero collaborator calls and perform no side effect (empty
trace), and return the error `Migration canceled` — cancellation is
reported through the error channel, indistinguishable at the type level
from a failure. -/
theorem confirmation_decline_cancel_error :
    (∀ (env : Repositories.Env) (version : String)
        (m : Repositories.Migration),
      env.loadResult = .ok m → m.version = version →
      env.confirmResult = .ok false →
      Repositories.migrate env version = ([], .error .canceled)) ∧
    (∀ (env : Circleci.Env) (version : String) (m : Circleci.Migration),
      env.loadResult = .ok m → m.version = version →
      env.confirmResult = .ok false →
      Circleci.migrate env version = ([], .error .canceled)) := by
  constructor
  · intro env version m hl hv hc
    simp only [Repositories.migrate, hl]
    rw [hv]
    simp [hc]
  · intro env version m hl hv hc
    unfold Circleci.migrate
    rw [Circleci.parse_migration_file_ok hl hv]
    simp [hc]

/-- C6 (amended) witness: the declining environment yields the empty trace
and the `canceled` error. -/
theorem confirmation_decline_cancel_error_witness :
    Repositories.migrate Repositories.envDeclined "0.3.3" =
      ([], .error .canceled) :=
  confirmation_decline_cancel_error.1 Repositories.envDeclined "0.3.3"
    Repositories.migrationW rfl rfl rfl

/-- C1: after load, version check and confirmation, each engine invokes
`run` on the plan actions strictly in list order (the invocation trace is
always a prefix of the action list — never reordered, deduplicated or
parallelized), and when every `run` succeeds the invocation trace is
exactly the action list. -/
theorem engine_invokes_actions_in_order :
    (∀ (env : Repositories.Env) (version : String)
        (m : Repositories.Migration),
      env.loadResult = .ok m → m.version = version →
      env.confirmResult = .ok true →
      (∃ k, Repositories.runInvocations
          (Repositories.migrate env version).1 = m.actions.take k) ∧
      ((∀ a ∈ m.actions, (Repositories.run env a).2 = .ok ()) →
        Repositories.runInvocations
          (Repositories.migrate env version).1 = m.actions)) ∧
    (∀ (env : Circleci.Env) (version : String) (m : Circleci.Migration),
      env.loadResult = .ok m → m.version = version →
      env.confirmResult = .ok true →
      (∃ k, Circleci.runInvocations
          (Circleci.migrate env version).1 = m.actions.take k) ∧
      ((∀ a ∈ m.actions, (Circleci.run env a).2 = .ok ()) →
        Circleci.runInvocations
          (Circleci.migrate env version).1 = m.actions)) := by
  constructor
  · intro env version m hl hv hc
    rw [Repositories.migrate_confirmed hl hv hc]
    exact ⟨Repositories.runActions_take env m.actions,
      fun hok => (Repositories.runActions_all_ok env m.actions hok).1⟩
  · intro env version m hl hv hc
    rw [Circleci.cc_migrate_confirmed hl hv hc]
    exact ⟨Circleci.cc_runActions_take env m.actions,
      fun hok => (Circleci.cc_runActions_all_ok env m.actions hok).1⟩

/-- C1 witness: on the all-success environment the engine invokes exactly
the two plan actions, in order. -/
theorem engine_invokes_actions_in_order_witness :
    Repositories.runInvocations
        (Repositories.migrate Repositories.envOk "0.3.3").1 =
      Repositories.migrationW.actions :=
  (engine_invokes_actions_in_order.1 Repositories.envOk "0.3.3"
      Repositories.migrationW rfl rfl rfl).2
    (by
      intro a ha
      simp only [Repositories.migrationW, List.mem_cons,
        List.not_mem_nil, or_false] at ha
      rcases ha with rfl | rfl <;> rfl)


/-- C2: inside `MigrateRepositories` (with the key staging and the progress
clear succeeding) per-repository failures are contained: the batch returns
`Ok(())` whatever the per-repository outcomes, every task's events appear in
the batch trace (all tasks are awaited), each failure is logged, and the
action loop continues past the batch; whereas for any action whose `run`
returns an error the loop propagates that error immediately and invokes no
later action. -/
theorem fanout_isolation_and_abort :
    ∀ env : Repositories.Env,
      (∀ repositories : List Repositories.Repository,
        env.keysTempDir = .ok () → env.storeSshKey "push" = .ok () →
        env.storeSshKey "pull" = .ok () → env.progressClear = .ok () →
        (Repositories.migrate_repositories env repositories).result =
          .ok () ∧
        (∀ r ∈ repositories,
          ∀ ev ∈ (Repositories.migrate_repository env r).events,
            ev ∈
              (Repositories.migrate_repositories env repositories).events) ∧
        (∀ r ∈ repositories, ∀ e,
          (Repositories.migrate_repository env r).result = .error e →
          Repositories.Event.failureLogged e ∈
            (Repositories.migrate_repositories env repositories).events) ∧
        (∀ rest : List Repositories.Action,
          (Repositories.runActions env
            (.migrateRepositories repositories :: rest)).2 =
          (Repositories.runActions env rest).2)) ∧
      (∀ (l1 : List Repositories.Action) (a : Repositories.Action)
          (l2 : List Repositories.Action) (e : Repositories.EngineError),
        (∀ b ∈ l1, (Repositories.run env b).2 = .ok ()) →
        (Repositories.run env a).2 = .error e →
        (Repositories.runActions env (l1 ++ a :: l2)).2 = .error e ∧
        Repositories.runInvocations
          (Repositories.runActions env (l1 ++ a :: l2)).1 = l1 ++ [a]) := by
  intro env
  constructor
  · intro repositories h1 h2 h3 h4
    have hall :=
      Repositories.migrate_repositories_all env repositories h1 h2 h3 h4
    have hres : (Repositories.migrate_repositories env repositories).result =
        .ok () := by rw [hall]
    have he : (Repositories.migrate_repositories env repositories).events =
        [Repositories.Event.sshKeyStored "push",
          Repositories.Event.sshKeyStored "pull"] ++
        Repositories.batchTaskEvents env repositories ++
        Repositories.batchLogEvents env repositories := by rw [hall]
    refine ⟨hres, ?_, ?_, ?_⟩
    · intro r hr ev hev
      rw [he]
      exact List.mem_append_left _
        (List.mem_append_right _ (Repositories.mem_batchTaskEvents hr hev))
    · intro r hr e hre
      rw [he]
      exact List.mem_append_right _
        (Repositories.mem_batchLogEvents hr hre)
    · intro rest
      have hrun : (Repositories.run env
          (.migrateRepositories repositories)).2 = .ok () := by
        rw [Repositories.run_migrateRepositories]
        exact hres
      rw [Repositories.runActions_cons_ok rest hrun]
  · intro l1 a l2 e hok ha
    exact Repositories.runActions_abort env l1 a l2 hok ha

/-- C2 witness: with a failing mirror push the batch of one repository still
completes with `Ok(())`, while a failing default-branch action aborts the
loop before any later action. -/
theorem fanout_isolation_and_abort_witness :
    (Repositories.migrate_repositories Repositories.envPushFail
        [Repositories.repoW]).result = .ok () ∧
    (Repositories.runActions Repositories.envBranchFail
        ([] ++ Repositories.Action.setRepositoryDefaultBranch "the-org/alpha"
            "main" :: [Repositories.Action.createTeam "team" []])).2 =
      .error (.gh .network) := by
  constructor
  · exact ((fanout_isolation_and_abort Repositories.envPushFail).1
      [Repositories.repoW] rfl rfl rfl rfl).1
  · exact ((fanout_isolation_and_abort Repositories.envBranchFail).2 []
      (Repositories.Action.setRepositoryDefaultBranch "the-org/alpha" "main")
      [Repositories.Action.createTeam "team" []] (.gh .network)
      (fun b hb => absurd hb (List.not_mem_nil b)) rfl).1

/-- C4: when the requested variable list is nonempty, every export POST
succeeds and every read-back observes fewer variables than requested, the
export routine issues exactly 5 POST requests, each immediately followed by
one read-back poll with no other step (in particular no sleep) in between,
and then returns success. -/
theorem export_environment_five_attempts :
    ∀ (env : Circleci.CircleEnv) (from_repo to_repo : String)
      (env_vars : List String),
      env_vars ≠ [] →
      (∀ i, env.postExportEnvironment i = .ok ()) →
      (∀ i, ∃ vs, env.getEnvVarsResult i = .ok vs ∧
        vs.length < env_vars.length) →
      Circleci.export_environment env from_repo to_repo env_vars =
        ([.postExportEnvironment from_repo to_repo env_vars,
          .getEnvVars to_repo,
          .postExportEnvironment from_repo to_repo env_vars,
          .getEnvVars to_repo,
          .postExportEnvironment from_repo to_repo env_vars,
          .getEnvVars to_repo,
          .postExportEnvironment from_repo to_repo env_vars,
          .getEnvVars to_repo,
          .postExportEnvironment from_repo to_repo env_vars,
          .getEnvVars to_repo], .ok ()) := by
  intro env from_repo to_repo env_vars hne hpost hget
  have hlen : 0 < env_vars.length := List.length_pos.mpr hne
  obtain ⟨vs0, hg0, hl0⟩ := hget 0
  obtain ⟨vs1, hg1, hl1⟩ := hget 1
  obtain ⟨vs2, hg2, hl2⟩ := hget 2
  obtain ⟨vs3, hg3, hl3⟩ := hget 3
  obtain ⟨vs4, hg4, hl4⟩ := hget 4
  unfold Circleci.export_environment
  rw [Circleci.exportLoop_step (by simpa using hlen) (by decide)
    (hpost 0) hg0]
  rw [Circleci.exportLoop_step hl0 (by decide) (hpost 1) hg1]
  rw [Circleci.exportLoop_step hl1 (by decide) (hpost 2) hg2]
  rw [Circleci.exportLoop_step hl2 (by decide) (hpost 3) hg3]
  rw [Circleci.exportLoop_step hl3 (by decide) (hpost 4) hg4]
  rw [Circleci.exportLoop_stop (by
    intro hcontra
    exact absurd hcontra.2 (by decide))]

/-- C4 witness: a collaborator whose read-back never returns any variable
receives exactly five alternating POST and GET calls and the routine
returns success. -/
theorem export_environment_five_attempts_witness :
    Circleci.export_environment Circleci.circleEnvNever "from-repo"
        "dest-repo" ["A"] =
      ([.postExportEnvironment "from-repo" "dest-repo" ["A"],
        .getEnvVars "dest-repo",
        .postExportEnvironment "from-repo" "dest-repo" ["A"],
        .getEnvVars "dest-repo",
        .postExportEnvironment "from-repo" "dest-repo" ["A"],
        .getEnvVars "dest-repo",
        .postExportEnvironment "from-repo" "dest-repo" ["A"],
        .getEnvVars "dest-repo",
        .postExportEnvironment "from-repo" "dest-repo" ["A"],
        .getEnvVars "dest-repo"], .ok ()) :=
  export_environment_five_attempts Circleci.circleEnvNever "from-repo"
    "dest-repo" ["A"] (by simp) (fun _ => rfl)
    (fun _ => ⟨[], rfl, by simp⟩)

/-- C7 counterexample: with a failing mirror push the per-repository task
fails AND its temporary clone directory is removed (by the TempDir drop on
the early return), contradicting the claim that it is left in place on
failure. -/
theorem temp_dir_on_failure_counterexample :
    (Repositories.migrate_repository Repositories.envPushFail
        Repositories.repoW).result = .error (.git "push denied") ∧
    (Repositories.migrate_repository Repositories.envPushFail
        Repositories.repoW).tempDirOnDisk = false := by
  rw [@Repositories.migrate_repository_eval_pushErr Repositories.envPushFail
    Repositories.repoW Repositories.ghRepoW (.git "push denied")
    rfl rfl rfl]
  exact ⟨rfl, rfl⟩

/-- C7 (amended): on success the per-repository temporary clone directory
is deleted; on failure it is likewise deleted (the `TempDir` value removes
the directory when dropped at the early return) — the directory can remain
on disk only when the final explicit `close` itself fails. -/
theorem temp_dir_cleanup_on_success_and_failure :
    ∀ (env : Repositories.Env) (repo : Repositories.Repository),
      ((∃ r, (Repositories.migrate_repository env repo).result = .ok r) →
        (Repositories.migrate_repository env repo).tempDirOnDisk = false) ∧
      ((Repositories.migrate_repository env repo).tempDirOnDisk = true →
        ∃ e, env.closeResult (Repositories.repoLabel repo) = .error e ∧
          (Repositories.migrate_repository env repo).result =
            .error e) := by
  intro env repo
  cases h : env.repoTempDir (Repositories.repoLabel repo) with
  | error e =>
    rw [Repositories.migrate_repository_eval_tempErr h]
    exact ⟨fun _ => rfl, fun hd => absurd hd (by simp)⟩
  | ok u =>
    cases u
    cases hc : (Github.create_repository env.github
        (Repositories.ghRepoName repo)).2 with
    | error e2 =>
      rw [Repositories.migrate_repository_eval_createErr h hc]
      exact ⟨fun _ => rfl, fun hd => absurd hd (by simp)⟩
    | ok gh_repo =>
      cases hp : env.pushResult gh_repo.ssh_url with
      | error e2 =>
        rw [Repositories.migrate_repository_eval_pushErr h hc hp]
        exact ⟨fun _ => rfl, fun hd => absurd hd (by simp)⟩
      | ok u2 =>
        cases u2
        cases hcl : env.closeResult (Repositories.repoLabel repo) with
        | error e2 =>
          rw [Repositories.migrate_repository_eval_closeErr h hc hp hcl]
          constructor
          · rintro ⟨r, hr⟩
            exact absurd hr (by simp)
          · intro _
            exact ⟨e2, rfl, rfl⟩
        | ok u3 =>
          cases u3
          rw [Repositories.migrate_repository_eval_ok h hc hp hcl]
          exact ⟨fun _ => rfl, fun hd => absurd hd (by simp)⟩

/-- C7 (amended) witness: on the all-success environment the task succeeds
and the temporary directory is gone. -/
theorem temp_dir_cleanup_on_success_and_failure_witness :
    (Repositories.migrate_repository Repositories.envOk
        Repositories.repoW).tempDirOnDisk = false :=
  (temp_dir_cleanup_on_success_and_failure Repositories.envOk
      Repositories.repoW).1
    ⟨Repositories.repoW, by
      rw [@Repositories.migrate_repository_eval_ok Repositories.envOk
        Repositories.repoW Repositories.ghRepoW rfl rfl rfl rfl]⟩

/-- C9: the per-repository task discards the `clone_mirror` result: its
whole outcome is unchanged under any replacement of the clone oracle; after
the temporary directory is created it always proceeds to the GitHub
repository-creation call, and when that call succeeds it attempts the
mirror push. -/
theorem clone_result_discarded_task_continues :
    ∀ (env : Repositories.Env) (repo : Repositories.Repository)
      (f g : String → Except Repositories.EngineError Unit),
      Repositories.migrate_repository
          (Repositories.setCloneResult env f) repo =
        Repositories.migrate_repository
          (Repositories.setCloneResult env g) repo ∧
      (env.repoTempDir (Repositories.repoLabel repo) = .ok () →
        Repositories.Event.cloneInvoked repo.clone_link ∈
          (Repositories.migrate_repository env repo).events ∧
        Repositories.Event.gh
            (.createRepository (Repositories.ghRepoName repo)) ∈
          (Repositories.migrate_repository env repo).events) ∧
      (∀ gh_repo,
        env.repoTempDir (Repositories.repoLabel repo) = .ok () →
        (Github.create_repository env.github
            (Repositories.ghRepoName repo)).2 = .ok gh_repo →
        Repositories.Event.pushInvoked gh_repo.ssh_url ∈
          (Repositories.migrate_repository env repo).events) := by
  intro env repo f g
  refine ⟨rfl, ?_, ?_⟩
  · intro h
    obtain ⟨tail, ht⟩ :=
      Repositories.migrate_repository_events_head env repo h
    rw [ht]
    have hm := Repositories.mem_taskPrefixEvents env repo
    exact ⟨List.mem_append_left _ hm.2.1, List.mem_append_left _ hm.2.2⟩
  · intro gh_repo h hc
    exact Repositories.migrate_repository_push_mem env repo h hc

/-- C9 witness: at a concrete repository the outcome with a failing clone
oracle equals the outcome with a succeeding one, and the push is still
attempted. -/
theorem clone_result_discarded_task_continues_witness :
    Repositories.migrate_repository
        (Repositories.setCloneResult Repositories.envOk
          (fun _ => .error (.git "clone failed"))) Repositories.repoW =
      Repositories.migrate_repository
        (Repositories.setCloneResult Repositories.envOk
          (fun _ => .ok ())) Repositories.repoW ∧
    Repositories.Event.pushInvoked Repositories.ghRepoW.ssh_url ∈
      (Repositories.migrate_repository Repositories.envOk
        Repositories.repoW).events :=
  ⟨(clone_result_discarded_task_continues Repositories.envOk
      Repositories.repoW (fun _ => .error (.git "clone failed"))
      (fun _ => .ok ())).1,
    (clone_result_discarded_task_continues Repositories.envOk
        Repositories.repoW (fun _ => .ok ()) (fun _ => .ok ())).2.2
      Repositories.ghRepoW rfl rfl⟩

/-- C10: the name passed to destination-repository creation is the source
full name with every scanned occurrence of the literal substring `moodup/`
removed (Rust `replace("moodup/", "")`): the engine trace contains the
creation call with exactly that name; a name without the substring is
passed unchanged; the input decomposes into segments interleaved with the
substring and the passed name is the concatenation of those segments; and a
name containing the substring is strictly shortened, hence never passed
verbatim. -/
theorem github_repo_name_strips_moodup :
    (∀ (env : Repositories.Env) (repo : Repositories.Repository),
      env.repoTempDir (Repositories.repoLabel repo) = .ok () →
      Repositories.Event.gh (.createRepository
          (rustReplace repo.full_name "moodup/" "")) ∈
        (Repositories.migrate_repository env repo).events) ∧
    (∀ s : String, containsSub "moodup/".data s.data = false →
      rustReplace s "moodup/" "" = s) ∧
    (∀ s : String, ∃ segs : List (List Char), segs ≠ [] ∧
      s.data = joinWithSep "moodup/".data segs ∧
      (rustReplace s "moodup/" "").data = segs.flatten) ∧
    (∀ s : String, containsSub "moodup/".data s.data = true →
      (rustReplace s "moodup/" "").data.length < s.data.length) := by
  refine ⟨?_, ?_, ?_, ?_⟩
  · intro env repo h
    obtain ⟨tail, ht⟩ :=
      Repositories.migrate_repository_events_head env repo h
    rw [ht]
    exact List.mem_append_left _
      (Repositories.mem_taskPrefixEvents env repo).2.2
  · intro s hs
    have h := @replaceList_of_not_contains s.data "moodup/".data "".data hs
    unfold rustReplace
    rw [h]
  · intro s
    obtain ⟨segs, h1, h2, h3⟩ :=
      replaceList_nil_spec "moodup/".data (by decide) s.data
    exact ⟨segs, h1, h2, h3⟩
  · intro s hs
    exact replaceList_nil_length_lt (by decide) hs

/-- C10 witness: with the sample repository `moodup/alpha` the trace of the
all-success task contains the creation call carrying the stripped name. -/
theorem github_repo_name_strips_moodup_witness :
    Repositories.Event.gh (Github.GhCall.createRepository
        (rustReplace Repositories.repoW.full_name "moodup/" "")) ∈
      (Repositories.migrate_repository Repositories.envOk
        Repositories.repoW).events :=
  github_repo_name_strips_moodup.1 Repositories.envOk Repositories.repoW rfl

end MigrateBbToGh
